import Mathlib

/-!
Shallow embedding of wandb_eval.py, the benchmark harness of the alliBot
repository.  The script compiles a MicroRTS bot, runs a round robin of
matches against a fixed roster of opponents, parses a one line JSON result
from each match subprocess, aggregates per opponent statistics and writes
reports.

Modelling conventions:
* Python floats are modelled by the exact rationals; Python round(x, n) is
  modelled by rounding x * 10^n to the nearest integer.
* json.loads (an external library) is a parameter decode : String -> Option JVal;
  a decode result of none models a raised json.JSONDecodeError.
* Each match subprocess invocation is a parameter results : Nat -> MatchResult
  giving the parsed result of the i-th invocation of run_match, counting from
  0 in program order (the loop in main increments match_index once per
  invocation, so the i-th invocation is the one recorded with match_index i).
* Fallible Python code (raise) is modelled with Except.
* Python string primitives (strip, split, substring containment) are spelled
  out structurally over the character list of the string, so that every
  definition evaluates by kernel reduction.
-/

/-- Split a character list at every occurrence of the separator character;
the separator is dropped and empty pieces are kept, as in Python
str.split(sep). -/
def splitChar (sep : Char) : List Char → List (List Char)
  | [] => [[]]
  | c :: cs =>
    if c = sep then [] :: splitChar sep cs
    else
      match splitChar sep cs with
      | [] => [[c]]
      | l :: ls => (c :: l) :: ls

/-- Remove leading and trailing whitespace from a character list. -/
def stripChars (l : List Char) : List Char :=
  ((l.dropWhile Char.isWhitespace).reverse.dropWhile Char.isWhitespace).reverse

/-- Whether the first list is an initial segment of the second. -/
def prefixEq : List Char → List Char → Bool
  | [], _ => true
  | _ :: _, [] => false
  | p :: ps, c :: cs => p = c && prefixEq ps cs

/-- Whether the pattern occurs as a contiguous subsequence. -/
def containsSeq (pat : List Char) : List Char → Bool
  | [] => pat.isEmpty
  | c :: cs => prefixEq pat (c :: cs) || containsSeq pat cs

/-- Python str.strip(). -/
def pyStrip (s : String) : String :=
  String.mk (stripChars s.data)

/-- Python str.split(sep) for a one character separator. -/
def pySplitOn (sep : Char) (s : String) : List String :=
  (splitChar sep s.data).map String.mk

/-- Python str.startswith(pat). -/
def pyStartsWith (s pat : String) : Bool :=
  prefixEq pat.data s.data

/-- Python substring containment, pat in s. -/
def hasSub (s pat : String) : Bool :=
  containsSeq pat.data s.data

/-- Python str.splitlines restricted to the newline terminator: split on the
newline character, except that a trailing newline produces no extra empty
line and the empty string has no lines. -/
def splitlines (s : String) : List String :=
  if s = "" then []
  else
    let parts := pySplitOn '\n' s
    if parts.getLast? = some "" then parts.dropLast else parts

/-- The JSON values relevant to the harness (json.loads output).  Numbers in
the match result lines are integers, so jnum carries an Int. -/
inductive JVal where
  | jnum (n : Int)
  | jbool (b : Bool)
  | jstr (s : String)
  | jnull
  | jarr (xs : List JVal)
  | jobj (fields : List (String × JVal))
deriving Repr, BEq

/-- Python dict lookup data[k] on a decoded JSON object, as an assoc list
lookup (json.loads produces one binding per key). -/
def jlookup (fields : List (String × JVal)) (k : String) : Option JVal :=
  (fields.find? (fun p => p.1 = k)).map (fun p => p.2)

/-- Python int(v) on a JSON value: ints unchanged, bools to 0 or 1, strings
parsed; anything else raises (none). -/
def jToInt : JVal → Option Int
  | .jnum n => some n
  | .jbool b => some (if b then 1 else 0)
  | .jstr s => s.toInt?
  | _ => none

/-- Python bool(v) truthiness on a JSON value. -/
def jToBool : JVal → Bool
  | .jnum n => n ≠ 0
  | .jbool b => b
  | .jstr s => s ≠ ""
  | .jnull => false
  | .jarr xs => !xs.isEmpty
  | .jobj fields => !fields.isEmpty

/-- The dict returned by parse_result: winner, cycles, game_over. -/
structure MatchResult where
  winner : Int
  cycles : Int
  game_over : Bool
deriving Repr, DecidableEq

/-- The ways parse_result can raise: json.loads failure on the selected line,
a KeyError / TypeError / ValueError while extracting the fields, or the final
ValueError (which carries the whole captured output) when no line matches. -/
inductive ParseErr where
  | jsonDecodeError
  | fieldError
  | noResultFound (output : String)
deriving Repr, DecidableEq

instance {ε α : Type u} [DecidableEq ε] [DecidableEq α] : DecidableEq (Except ε α) := fun a b =>
  match a, b with
  | .ok x, .ok y => decidable_of_iff (x = y) (by simp)
  | .error x, .error y => decidable_of_iff (x = y) (by simp)
  | .ok _, .error _ => .isFalse (fun h => Except.noConfusion h)
  | .error _, .ok _ => .isFalse (fun h => Except.noConfusion h)

/-- The line filter inside parse_result: after stripping, the line starts
with an opening brace and contains the quoted key winner. -/
def isCandidateLine (line : String) : Bool :=
  pyStartsWith (pyStrip line) "\x7b" && hasSub (pyStrip line) "\"winner\""

/-- Field extraction of parse_result once a line has been decoded:
int(data["winner"]), int(data["cycles"]), bool(data["game_over"]), each
KeyError / coercion failure collapsed into fieldError. -/
def extractFields (v : JVal) : Except ParseErr MatchResult :=
  match v with
  | .jobj fields =>
    match jlookup fields "winner" with
    | none => .error .fieldError
    | some wv =>
      match jToInt wv with
      | none => .error .fieldError
      | some w =>
        match jlookup fields "cycles" with
        | none => .error .fieldError
        | some cv =>
          match jToInt cv with
          | none => .error .fieldError
          | some c =>
            match jlookup fields "game_over" with
            | none => .error .fieldError
            | some gv => .ok ⟨w, c, jToBool gv⟩
  | _ => .error .fieldError

/-- What parse_result does to the committed line: json.loads on the stripped
line (raising on invalid JSON), then field extraction. -/
def decodeLineResult (decode : String → Option JVal) (line : String) :
    Except ParseErr MatchResult :=
  match decode (pyStrip line) with
  | none => .error .jsonDecodeError
  | some v => extractFields v

/-- Whether a line, after stripping, decodes as a JSON object that has a
winner key: the notion of a result line the spec claims about parse_result
quantify over. -/
def decodesToWinnerObj (decode : String → Option JVal) (line : String) : Bool :=
  match decode (pyStrip line) with
  | some (.jobj fields) => (jlookup fields "winner").isSome
  | _ => false

/-- The loop of parse_result over the reversed list of lines: the first line
(from the end) that passes the filter is committed to json.loads and field
extraction; any failure there propagates.  none means the loop fell through
without finding a candidate line. -/
def parseLoop (decode : String → Option JVal) :
    List String → Option (Except ParseErr MatchResult)
  | [] => none
  | line :: rest =>
    if isCandidateLine line then some (decodeLineResult decode line)
    else parseLoop decode rest

/-- parse_result (wandb_eval.py, lines 131-141): scan the captured output
lines from the end; on the last line that starts with a brace and contains
the quoted key winner, decode JSON and extract winner, cycles, game_over;
raise ValueError carrying the output when no line matches. -/
def parse_result (decode : String → Option JVal) (stdout : String) :
    Except ParseErr MatchResult :=
  match parseLoop decode (splitlines stdout).reverse with
  | some r => r
  | none => .error (.noResultFound stdout)

/-- One row per executed match, as built in the loop of main (lines 391-400
and 427-436): alli_side records which side the candidate bot played. -/
structure Row where
  match_index : Nat
  opponent : String
  map : String
  round : Nat
  alli_side : Nat
  winner : Int
  cycles : Int
  result : String
deriving Repr, DecidableEq

/-- One row per opponent, as built by summarize (lines 193-204).  The Python
floats win_rate, score, avg_cycles are modelled exactly as rationals. -/
structure SummaryRow where
  opponent : String
  games : Nat
  wins : Nat
  losses : Nat
  ties : Nat
  win_rate : ℚ
  score : ℚ
  avg_cycles : ℚ
deriving Repr, DecidableEq

/-- Python round(x, ndigits) on the exact rational value. -/
def pyRound (q : ℚ) (ndigits : Nat) : ℚ :=
  ((round (q * 10 ^ ndigits) : ℤ) : ℚ) / 10 ^ ndigits

/-- One step of by_opp.setdefault(key, []).append(row): append the row to the
group of its key, keeping first-occurrence insertion order of the keys. -/
def insertGroup (key : String) (r : Row) : List (String × List Row) → List (String × List Row)
  | [] => [(key, [r])]
  | (k, items) :: rest =>
    if k = key then (k, items ++ [r]) :: rest
    else (k, items) :: insertGroup key r rest

/-- The grouping loop of summarize (lines 180-182). -/
def groupByOpp (rows : List Row) : List (String × List Row) :=
  rows.foldl (fun acc r => insertGroup r.opponent r acc) []

/-- The body of the summary loop of summarize (lines 185-204) for one
opponent group. -/
def summarizeGroup (opp : String) (items : List Row) : SummaryRow :=
  let wins := (items.filter (fun r => r.result = "win")).length
  let losses := (items.filter (fun r => r.result = "loss")).length
  let ties := (items.filter (fun r => r.result = "tie")).length
  let games := items.length
  let avg_cycles : ℚ := ((items.map (fun r => r.cycles)).sum : ℚ) / ((max games 1 : ℕ) : ℚ)
  let win_rate : ℚ := (wins : ℚ) / ((max games 1 : ℕ) : ℚ)
  let score : ℚ := ((wins : ℚ) + 1 / 2 * (ties : ℚ)) / ((max games 1 : ℕ) : ℚ)
  { opponent := opp, games := games, wins := wins, losses := losses, ties := ties,
    win_rate := pyRound win_rate 4, score := pyRound score 4,
    avg_cycles := pyRound avg_cycles 2 }

/-- The sort key of summary.sort(key=lambda x: str(x["opponent"])). -/
def oppLe (a b : SummaryRow) : Prop := a.opponent ≤ b.opponent

instance : DecidableRel oppLe := fun a b =>
  inferInstanceAs (Decidable (a.opponent ≤ b.opponent))

/-- summarize (wandb_eval.py, lines 179-206): group the match rows by
opponent in first-occurrence order, compute one summary row per group, sort
by opponent key (list.sort is a stable ascending sort, modelled by stable
insertion sort). -/
def summarize (rows : List Row) : List SummaryRow :=
  List.insertionSort oppLe ((groupByOpp rows).map (fun p => summarizeGroup p.1 p.2))

/-- Outcome classification with the candidate on side 0 (line 390):
"win" if winner == 0 else "loss" if winner == 1 else "tie". -/
def outcomeSide0 (winner : Int) : String :=
  if winner = 0 then "win" else if winner = 1 then "loss" else "tie"

/-- Outcome classification with the candidate on side 1 (line 426):
"win" if winner == 1 else "loss" if winner == 0 else "tie". -/
def outcomeSide1 (winner : Int) : String :=
  if winner = 1 then "win" else if winner = 0 then "loss" else "tie"

/-- The row built for the candidate-as-side-0 match (lines 391-400). -/
def mkRowA (opp mp : String) (round_idx mi : Nat) (res : MatchResult) : Row :=
  { match_index := mi, opponent := opp, map := mp, round := round_idx,
    alli_side := 0, winner := res.winner, cycles := res.cycles,
    result := outcomeSide0 res.winner }

/-- The row built for the candidate-as-side-1 match (lines 427-436). -/
def mkRowB (opp mp : String) (round_idx mi : Nat) (res : MatchResult) : Row :=
  { match_index := mi, opponent := opp, map := mp, round := round_idx,
    alli_side := 1, winner := res.winner, cycles := res.cycles,
    result := outcomeSide1 res.winner }

/-- The innermost loop body of main (lines 377-448) over the list of round
indices, threading the accumulated rows and the match_index counter: each
round runs the candidate-as-side-0 match then the candidate-as-side-1 match,
appending one row and bumping match_index after each. -/
def runRounds (results : Nat → MatchResult) (opp mp : String) :
    List Nat → List Row × Nat → List Row × Nat
  | [], st => st
  | round_idx :: rest, (rows, mi) =>
    let row_a := mkRowA opp mp round_idx mi (results mi)
    let rows := rows ++ [row_a]
    let mi := mi + 1
    let row_b := mkRowB opp mp round_idx mi (results mi)
    runRounds results opp mp rest (rows ++ [row_b], mi + 1)

/-- The map loop of main (line 376). -/
def runMaps (results : Nat → MatchResult) (opp : String) (rounds : Nat) :
    List String → List Row × Nat → List Row × Nat
  | [], st => st
  | mp :: rest, st =>
    runMaps results opp rounds rest (runRounds results opp mp (List.range rounds) st)

/-- The opponent loop of main (line 374). -/
def runOpponents (results : Nat → MatchResult) (maps : List String) (rounds : Nat) :
    List String → List Row × Nat → List Row × Nat
  | [], st => st
  | opp :: rest, st =>
    runOpponents results maps rounds rest (runMaps results opp rounds maps st)

/-- The full match loop of main (lines 371-448): all_rows = [] and
match_index = 0 initially, then the triple loop over opponents, maps and
rounds.  results i is the parsed result of the i-th run_match invocation;
this models the run in which every invocation succeeds. -/
def runAll (results : Nat → MatchResult) (opponents maps : List String)
    (rounds : Nat) : List Row :=
  (runOpponents results maps rounds opponents ([], 0)).1

/-- The fixed opponent roster mapping (wandb_eval.py, lines 23-30), in
source order. -/
def BENCHMARKS : List (String × String) :=
  [("random", "ai.RandomAI"),
   ("worker_rush", "ai.abstraction.WorkerRush"),
   ("light_rush", "ai.abstraction.LightRush"),
   ("naive_mcts", "ai.mcts.naivemcts.NaiveMCTS"),
   ("mayari", "mayariBot.mayari"),
   ("coac", "ai.coac.CoacAI")]

/-- selected_keys (line 351): split the opponents argument on commas, strip
each piece, keep the nonempty ones. -/
def parseOpponents (arg : String) : List String :=
  ((pySplitOn ',' arg).map pyStrip).filter (fun x => x ≠ "")

/-- The configuration error raised on line 354, with the structured content
of its message: the offending keys and sorted(BENCHMARKS.keys()). -/
inductive RunError where
  | unknownOpponents (unknown : List String) (validKeys : List String)
deriving Repr, DecidableEq

/-- Observable external effects of the run relevant to claim C9: the
wandb.init call (line 356) and one wandb.log call per match row (lines
402 and 438), tagged with its match_index. -/
inductive Event where
  | wandbInit
  | wandbLogMatch (mi : Nat)
deriving Repr, DecidableEq

/-- sorted(BENCHMARKS.keys()) in the error message of line 354 (sorted is a
stable ascending sort, modelled by stable insertion sort). -/
def validKeysSorted : List String :=
  List.insertionSort (fun a b : String => a ≤ b) (BENCHMARKS.map Prod.fst)

/-- main from the opponent-key check onward (lines 351-448): parse the
selected keys, fail on unknown keys before wandb.init and before any match,
otherwise init the tracking run and execute the match loop, logging each
match.  The earlier build stages (lines 316-349) are filesystem and
subprocess work that precedes this slice. -/
def evalRun (results : Nat → MatchResult) (opponentsArg : String)
    (maps : List String) (rounds : Nat) : Except RunError (List Event × List Row) :=
  let selected_keys := parseOpponents opponentsArg
  let unknown := selected_keys.filter (fun k => !((BENCHMARKS.map Prod.fst).contains k))
  if unknown ≠ [] then
    .error (.unknownOpponents unknown validKeysSorted)
  else
    let rows := runAll results selected_keys maps rounds
    .ok (Event.wandbInit :: rows.map (fun r => Event.wandbLogMatch r.match_index), rows)

/-- class_to_jar_entry (lines 54-55): class_name.replace(".", "/") + ".class";
a one character replacement is a map over the characters. -/
def class_to_jar_entry (class_name : String) : String :=
  String.mk (class_name.data.map (fun c => if c = '.' then '/' else c)) ++ ".class"

/-- A built archive, by its entry name list (zipfile namelist). -/
structure Jar where
  entries : List String
deriving Repr, DecidableEq

/-- jar_has_class (lines 58-63) on a built archive: the entry derived from
the class name is in the namelist. -/
def jar_has_class (jar : Jar) (class_name : String) : Bool :=
  jar.entries.contains (class_to_jar_entry class_name)

/-- build_bot_jar_from_source (lines 66-101), restricted to its archive
building and validation step: compilation is an external subprocess, so the
class files it produced (their build-directory-relative paths, which become
the archive entry names on line 95) are a parameter.  The archive is written
with the manifest entry first and one entry per class file; then the target
class presence is checked with jar_has_class, raising RuntimeError when it
is absent (lines 98-99). -/
def build_bot_jar_from_source (classFiles : List String) (bot_class : String) :
    Except String Jar :=
  let jar : Jar := ⟨"META-INF/MANIFEST.MF" :: classFiles⟩
  if jar_has_class jar bot_class then .ok jar
  else .error ("Built jar does not contain " ++ class_to_jar_entry bot_class)

/-- A successful field extraction can only come from a JSON object that has
a winner key. -/
theorem extractFields_ok_shape (v : JVal) (r : MatchResult)
    (h : extractFields v = .ok r) :
    ∃ fields, v = .jobj fields ∧ (jlookup fields "winner").isSome := by
  cases v with
  | jnum n => simp [extractFields] at h
  | jbool b => simp [extractFields] at h
  | jstr s => simp [extractFields] at h
  | jnull => simp [extractFields] at h
  | jarr xs => simp [extractFields] at h
  | jobj fields =>
    refine ⟨fields, rfl, ?_⟩
    simp only [extractFields] at h
    cases hw : jlookup fields "winner" with
    | none => rw [hw] at h; simp at h
    | some wv => simp

/-- The scan of parse_result ignores a block of non candidate lines. -/
theorem parseLoop_skip (decode : String → Option JVal) (xs ys : List String)
    (hxs : ∀ l ∈ xs, isCandidateLine l = false) :
    parseLoop decode (xs ++ ys) = parseLoop decode ys := by
  induction xs with
  | nil => rfl
  | cons a as ih =>
    have ha : isCandidateLine a = false := hxs a (by simp)
    rw [List.cons_append, parseLoop, if_neg (by simp [ha])]
    exact ih (fun l hl => hxs l (List.mem_cons_of_mem a hl))

/-- A successful scan commits to some candidate line of the list. -/
theorem parseLoop_ok_mem (decode : String → Option JVal) (lines : List String)
    (r : MatchResult) (h : parseLoop decode lines = some (.ok r)) :
    ∃ l ∈ lines, isCandidateLine l = true ∧ decodeLineResult decode l = .ok r := by
  induction lines with
  | nil => simp [parseLoop] at h
  | cons a as ih =>
    unfold parseLoop at h
    by_cases ha : isCandidateLine a = true
    · rw [if_pos ha] at h
      exact ⟨a, List.mem_cons_self a as, ha, Option.some.inj h ▸ rfl⟩
    · rw [if_neg ha] at h
      obtain ⟨l, hl, hc, hd⟩ := ih h
      exact ⟨l, List.mem_cons_of_mem a hl, hc, hd⟩

/-- C6: for every captured output string containing no line that is a JSON
object with a winner key, parse_result fails with a detectable error rather
than returning any default result. -/
theorem c6_parse_result_fails_without_result_line (decode : String → Option JVal)
    (out : String)
    (h : ∀ l ∈ splitlines out, decodesToWinnerObj decode l = false) :
    ∃ e, parse_result decode out = .error e := by
  unfold parse_result
  cases hp : parseLoop decode (splitlines out).reverse with
  | none => exact ⟨.noResultFound out, rfl⟩
  | some res =>
    cases res with
    | error e => exact ⟨e, rfl⟩
    | ok r =>
      obtain ⟨l, hl, _, hdec⟩ := parseLoop_ok_mem decode _ r hp
      have hl2 : l ∈ splitlines out := List.mem_reverse.mp hl
      unfold decodeLineResult at hdec
      cases hv : decode (pyStrip l) with
      | none => rw [hv] at hdec; simp at hdec
      | some v =>
        rw [hv] at hdec
        obtain ⟨fields, hvf, hw⟩ := extractFields_ok_shape v r hdec
        have hfalse := h l hl2
        rw [decodesToWinnerObj, hv, hvf] at hfalse
        simp at hfalse
        rw [hfalse] at hw
        simp at hw

def c6Out : String := "Engine starting\nGame finished with no JSON result\n"

def c6Decode : String → Option JVal := fun _ => none

theorem c6_witness :
    (∀ l ∈ splitlines c6Out, decodesToWinnerObj c6Decode l = false)
    ∧ ∃ e, parse_result c6Decode c6Out = Except.error e :=
  ⟨by decide, c6_parse_result_fails_without_result_line c6Decode c6Out (by decide)⟩

/-- C1 (amended): for every captured output string whose last candidate line
(stripped, starts with an opening brace, contains the quoted key winner)
decodes as a JSON object yielding winner, cycles and game_over, parse_result
returns exactly that decoded triple, regardless of any preceding noise
lines. -/
theorem c1_parse_result_returns_last_result_line (decode : String → Option JVal)
    (out : String) (pre post : List String) (L : String) (r : MatchResult)
    (hsplit : splitlines out = pre ++ L :: post)
    (hpost : ∀ l ∈ post, isCandidateLine l = false)
    (hL : isCandidateLine L = true)
    (hdec : decodeLineResult decode L = .ok r) :
    parse_result decode out = .ok r := by
  unfold parse_result
  rw [hsplit]
  have hrev : (pre ++ L :: post).reverse = post.reverse ++ L :: pre.reverse := by
    simp
  rw [hrev,
    parseLoop_skip decode post.reverse _ (fun l hl => hpost l (List.mem_reverse.mp hl)),
    parseLoop, if_pos hL, hdec]

def c1Line : String := "\x7b\"winner\":1,\"cycles\":340,\"game_over\":true\x7d"

def c1Out : String := "Starting engine\nsome log line\n" ++ c1Line ++ "\n"

/-- Models json.loads on the strings that occur in the concrete outputs used
below: the well formed result line decodes to its object, anything else
(including the truncated brace line of the counterexample) raises. -/
def c1Decode : String → Option JVal := fun s =>
  if s = c1Line then
    some (.jobj [("winner", .jnum 1), ("cycles", .jnum 340), ("game_over", .jbool true)])
  else none

theorem c1_witness :
    splitlines c1Out = ["Starting engine", "some log line"] ++ c1Line :: []
    ∧ isCandidateLine c1Line = true
    ∧ decodeLineResult c1Decode c1Line = Except.ok ⟨1, 340, true⟩
    ∧ parse_result c1Decode c1Out = Except.ok ⟨1, 340, true⟩ :=
  ⟨by decide, by decide, by decide,
   c1_parse_result_returns_last_result_line c1Decode c1Out
     ["Starting engine", "some log line"] [] c1Line ⟨1, 340, true⟩
     (by decide) (by decide) (by decide) (by decide)⟩

def c1BadOut : String := c1Line ++ "\n\x7b\"winner\" truncated garbage"

/-- C1 counterexample: an output whose last line that is a JSON object with
a winner key is the first line, decoding to winner=1, cycles=340,
game_over=true, followed by a line that starts with a brace and contains the
quoted key winner but is not valid JSON.  The claim as stated demands that
parse_result return the decoded triple of that last result line; the code
instead commits to the later malformed line and raises a JSON decode
error. -/
theorem c1_counterexample :
    (splitlines c1BadOut).reverse.find? (fun l => decodesToWinnerObj c1Decode l)
      = some c1Line
    ∧ decodeLineResult c1Decode c1Line = Except.ok ⟨1, 340, true⟩
    ∧ parse_result c1Decode c1BadOut = Except.error ParseErr.jsonDecodeError := by
  decide

def c10Line : String := "\x7b\"winner\":0,\"cycles\":7,\"game_over\":true\x7d"

def c10Last : String := "\x7b\"winner\": not json at all"

def c10Out : String := c10Line ++ "\nengine log\n" ++ c10Last

/-- Models json.loads on the lines of c10Out: the first line is well formed,
the last one is invalid JSON. -/
def c10Decode : String → Option JVal := fun s =>
  if s = c10Line then
    some (.jobj [("winner", .jnum 0), ("cycles", .jnum 7), ("game_over", .jbool true)])
  else none

/-- C10: on an output whose last line starting with a brace and containing
the substring winner is not valid JSON, parse_result raises a JSON decoding
error instead of continuing the backward scan, even though an earlier line
is a well formed JSON result object with a winner key. -/
theorem c10_invalid_last_candidate_raises :
    (splitlines c10Out).reverse.find? isCandidateLine = some c10Last
    ∧ (c10Decode (pyStrip c10Last)).isNone = true
    ∧ c10Line ∈ splitlines c10Out
    ∧ decodesToWinnerObj c10Decode c10Line = true
    ∧ decodeLineResult c10Decode c10Line = Except.ok ⟨0, 7, true⟩
    ∧ parse_result c10Decode c10Out = Except.error ParseErr.jsonDecodeError := by
  decide

/-- The archive entry of a class name ends in .class, so it is never the
manifest entry. -/
theorem class_entry_ne_manifest (c : String) :
    class_to_jar_entry c ≠ "META-INF/MANIFEST.MF" := by
  intro h
  have hd : (c.data.map (fun ch => if ch = '.' then '/' else ch)) ++ ".class".data
      = "META-INF/MANIFEST.MF".data := by
    have hc := congrArg String.data h
    rwa [class_to_jar_entry, String.data_append] at hc
  have hlen : (c.data.map (fun ch => if ch = '.' then '/' else ch)).length + 6 = 20 := by
    have := congrArg List.length hd
    simpa using this
  have hdrop := congrArg (List.drop 14) hd
  rw [List.drop_left' (by omega)] at hdrop
  exact absurd hdrop (by decide)

/-- C7: archive building maps the fully qualified class name x.y.Z to the
archive internal path x/y/Z.class; when compilation produced that class file
the built archive reports the class present, and when the target class is
not among the produced class files the build fails instead of returning the
archive. -/
theorem c7_build_jar_checks_target_class (classFiles : List String) (bot_class : String) :
    class_to_jar_entry "x.y.Z" = "x/y/Z.class"
    ∧ (class_to_jar_entry bot_class ∈ classFiles →
        ∃ jar, build_bot_jar_from_source classFiles bot_class = .ok jar
          ∧ jar_has_class jar bot_class = true)
    ∧ (class_to_jar_entry bot_class ∉ classFiles →
        ∃ msg, build_bot_jar_from_source classFiles bot_class = .error msg) := by
  refine ⟨by decide, ?_, ?_⟩
  · intro hmem
    have hhas : jar_has_class ⟨"META-INF/MANIFEST.MF" :: classFiles⟩ bot_class = true := by
      simp [jar_has_class]
      exact Or.inr hmem
    exact ⟨_, by rw [build_bot_jar_from_source, if_pos hhas], hhas⟩
  · intro hmem
    have hhas : jar_has_class ⟨"META-INF/MANIFEST.MF" :: classFiles⟩ bot_class = false := by
      simp [jar_has_class]
      exact ⟨class_entry_ne_manifest bot_class, hmem⟩
    exact ⟨_, by rw [build_bot_jar_from_source, if_neg (by simp [hhas])]⟩

theorem c7_witness :
    (class_to_jar_entry "x.y.Z" ∈ ["x/y/Z.class", "x/y/Helper.class"]
      ∧ ∃ jar, build_bot_jar_from_source ["x/y/Z.class", "x/y/Helper.class"] "x.y.Z" = .ok jar
          ∧ jar_has_class jar "x.y.Z" = true)
    ∧ (class_to_jar_entry "x.y.Z" ∉ ["a/B.class"]
      ∧ ∃ msg, build_bot_jar_from_source ["a/B.class"] "x.y.Z" = .error msg) :=
  ⟨⟨by decide,
    (c7_build_jar_checks_target_class ["x/y/Z.class", "x/y/Helper.class"] "x.y.Z").2.1 (by decide)⟩,
   ⟨by decide,
    (c7_build_jar_checks_target_class ["a/B.class"] "x.y.Z").2.2 (by decide)⟩⟩

/-- C9: when the opponent key list contains a key outside the fixed roster,
the run fails with the configuration error enumerating the valid keys, and
the failure precedes wandb.init and every match: the run produces no trace
at all. -/
theorem c9_unknown_opponent_fails_before_init (results : Nat → MatchResult)
    (arg : String) (maps : List String) (rounds : Nat)
    (h : ∃ k ∈ parseOpponents arg, k ∉ BENCHMARKS.map Prod.fst) :
    evalRun results arg maps rounds
      = .error (.unknownOpponents
          ((parseOpponents arg).filter
            (fun k => !((BENCHMARKS.map Prod.fst).contains k)))
          validKeysSorted)
    ∧ (∀ k, k ∈ validKeysSorted ↔ k ∈ BENCHMARKS.map Prod.fst)
    ∧ ∀ out, evalRun results arg maps rounds ≠ .ok out := by
  obtain ⟨k, hk, hnk⟩ := h
  have hkf : k ∈ (parseOpponents arg).filter
      (fun k => !((BENCHMARKS.map Prod.fst).contains k)) := by
    rw [List.mem_filter]
    exact ⟨hk, by simp [hnk]⟩
  have hne : (parseOpponents arg).filter
      (fun k => !((BENCHMARKS.map Prod.fst).contains k)) ≠ [] :=
    List.ne_nil_of_mem hkf
  have herr : evalRun results arg maps rounds
      = .error (.unknownOpponents
          ((parseOpponents arg).filter
            (fun k => !((BENCHMARKS.map Prod.fst).contains k)))
          validKeysSorted) := by
    rw [evalRun, if_pos hne]
  refine ⟨herr, ?_, ?_⟩
  · intro key
    exact (List.perm_insertionSort (fun a b : String => a ≤ b) (BENCHMARKS.map Prod.fst)).mem_iff
  · intro out hout
    rw [herr] at hout
    exact Except.noConfusion hout

theorem c9_witness :
    (∃ k ∈ parseOpponents "random, bogus_bot ,coac", k ∉ BENCHMARKS.map Prod.fst)
    ∧ evalRun (fun _ => ⟨0, 0, true⟩) "random, bogus_bot ,coac" ["m"] 1
      = .error (.unknownOpponents ["bogus_bot"] validKeysSorted)
    ∧ ∀ out, evalRun (fun _ => ⟨0, 0, true⟩) "random, bogus_bot ,coac" ["m"] 1 ≠ .ok out := by
  have h : ∃ k ∈ parseOpponents "random, bogus_bot ,coac", k ∉ BENCHMARKS.map Prod.fst := by
    decide
  have := c9_unknown_opponent_fails_before_init (fun _ => ⟨0, 0, true⟩)
    "random, bogus_bot ,coac" ["m"] 1 h
  refine ⟨h, ?_, this.2.2⟩
  rw [this.1]
  have hf : (parseOpponents "random, bogus_bot ,coac").filter
      (fun k => !((BENCHMARKS.map Prod.fst).contains k)) = ["bogus_bot"] := by decide
  rw [hf]

/-- The iteration order of the Python dict built by setdefault: the keys of
a string list in first occurrence order. -/
def firstOcc : List String → List String
  | [] => []
  | k :: ks => k :: (firstOcc ks).filter (fun x => x ≠ k)

theorem firstOcc_append_not_mem (l : List String) (a : String) (ha : a ∉ l) :
    firstOcc (l ++ [a]) = firstOcc l ++ [a] := by
  induction l with
  | nil => rfl
  | cons k ks ih =>
    have hak : a ≠ k := fun h => ha (h ▸ List.mem_cons_self k ks)
    have haks : a ∉ ks := fun h => ha (List.mem_cons_of_mem k h)
    rw [List.cons_append, firstOcc, ih haks, List.filter_append, firstOcc]
    simp [hak]

theorem firstOcc_append_mem (l : List String) (a : String) (ha : a ∈ l) :
    firstOcc (l ++ [a]) = firstOcc l := by
  induction l with
  | nil => cases ha
  | cons k ks ih =>
    rw [List.cons_append, firstOcc, firstOcc]
    by_cases hks : a ∈ ks
    · rw [ih hks]
    · have hak : a = k := by
        rcases List.mem_cons.mp ha with h | h
        · exact h
        · exact absurd h hks
      rw [firstOcc_append_not_mem ks a hks, List.filter_append]
      simp [hak]

theorem firstOcc_nodup (l : List String) : (firstOcc l).Nodup := by
  induction l with
  | nil => exact List.nodup_nil
  | cons k ks ih =>
    rw [firstOcc]
    refine List.Nodup.cons ?_ (ih.filter _)
    intro hk
    have := List.of_mem_filter hk
    simp at this

theorem mem_firstOcc (l : List String) (x : String) : x ∈ firstOcc l ↔ x ∈ l := by
  induction l with
  | nil => simp [firstOcc]
  | cons k ks ih =>
    rw [firstOcc]
    by_cases hxk : x = k
    · subst hxk
      simp
    · simp only [List.mem_cons, List.mem_filter]
      constructor
      · rintro (h | ⟨h, _⟩)
        · exact Or.inl h
        · exact Or.inr (ih.mp h)
      · rintro (h | h)
        · exact Or.inl h
        · exact Or.inr ⟨ih.mpr h, by simp [hxk]⟩

theorem insertGroup_not_mem (key : String) (r : Row) (keys : List String)
    (f : String → List Row) (hkey : key ∉ keys) :
    insertGroup key r (keys.map (fun k => (k, f k)))
      = keys.map (fun k => (k, f k)) ++ [(key, [r])] := by
  induction keys with
  | nil => rfl
  | cons k ks ih =>
    have hk : k ≠ key := fun h => hkey (h ▸ List.mem_cons_self k ks)
    simp only [List.map_cons, insertGroup, if_neg hk, List.cons_append]
    rw [ih (fun h => hkey (List.mem_cons_of_mem k h))]

theorem insertGroup_mem (key : String) (r : Row) (keys : List String)
    (f : String → List Row) (hkey : key ∈ keys) (hnd : keys.Nodup) :
    insertGroup key r (keys.map (fun k => (k, f k)))
      = keys.map (fun k => (k, if k = key then f k ++ [r] else f k)) := by
  induction keys with
  | nil => cases hkey
  | cons k ks ih =>
    by_cases hk : k = key
    · subst hk
      have hks : k ∉ ks := (List.nodup_cons.mp hnd).1
      simp only [List.map_cons, insertGroup]
      simp only [if_true]
      congr 1
      refine (List.map_congr_left ?_).symm
      intro x hx
      have hxk : x ≠ k := fun h => hks (h ▸ hx)
      simp [hxk]
    · have hkey' : key ∈ ks := by
        rcases List.mem_cons.mp hkey with h | h
        · exact absurd h.symm hk
        · exact h
      simp only [List.map_cons, insertGroup, if_neg hk]
      rw [ih hkey' (List.nodup_cons.mp hnd).2]

/-- groupByOpp in closed form: the opponent keys in first occurrence order,
each paired with the sublist of rows having that opponent. -/
theorem groupByOpp_eq_canon (rows : List Row) :
    groupByOpp rows
      = (firstOcc (rows.map Row.opponent)).map
          (fun k => (k, rows.filter (fun r => r.opponent = k))) := by
  induction rows using List.reverseRecOn with
  | nil => rfl
  | append_singleton rs r ih =>
    have hstep : groupByOpp (rs ++ [r]) = insertGroup r.opponent r (groupByOpp rs) := by
      rw [groupByOpp, groupByOpp, List.foldl_append, List.foldl_cons, List.foldl_nil]
    rw [hstep, ih, List.map_append, List.map_cons, List.map_nil]
    by_cases hmem : r.opponent ∈ rs.map Row.opponent
    · rw [firstOcc_append_mem _ _ hmem,
        insertGroup_mem r.opponent r _ _ ((mem_firstOcc _ _).mpr hmem) (firstOcc_nodup _)]
      refine List.map_congr_left ?_
      intro k _
      rw [List.filter_append]
      by_cases hk : k = r.opponent
      · subst hk
        simp
      · have hk2 : ¬(r.opponent = k) := fun h => hk h.symm
        simp [hk, hk2]
    · rw [firstOcc_append_not_mem _ _ hmem,
        insertGroup_not_mem r.opponent r _ _ ((fun h => hmem ((mem_firstOcc _ _).mp h)))]
      rw [List.map_append, List.map_cons, List.map_nil]
      congr 1
      · refine List.map_congr_left ?_
        intro k hkmem
        have hk : ¬(r.opponent = k) := by
          intro h
          exact hmem (h ▸ (mem_firstOcc _ _).mp hkmem)
        rw [List.filter_append]
        simp [hk]
      · have hnil : rs.filter (fun row => row.opponent = r.opponent) = [] := by
          rw [List.filter_eq_nil_iff]
          intro a ha h
          exact hmem (List.mem_map.mpr ⟨a, ha, by simpa using h⟩)
        rw [List.filter_append, hnil]
        simp

/-- summarize in closed form over the first occurrence key order. -/
theorem summarize_eq_canon (rows : List Row) :
    summarize rows = List.insertionSort oppLe
      ((firstOcc (rows.map Row.opponent)).map
        (fun k => summarizeGroup k (rows.filter (fun r => r.opponent = k)))) := by
  rw [summarize, groupByOpp_eq_canon, List.map_map]
  rfl

theorem mem_summarize_iff (rows : List Row) (s : SummaryRow) :
    s ∈ summarize rows ↔ ∃ k ∈ firstOcc (rows.map Row.opponent),
      s = summarizeGroup k (rows.filter (fun r => r.opponent = k)) := by
  rw [summarize_eq_canon, (List.perm_insertionSort oppLe _).mem_iff, List.mem_map]
  constructor
  · rintro ⟨k, hk, rfl⟩
    exact ⟨k, hk, rfl⟩
  · rintro ⟨k, hk, rfl⟩
    exact ⟨k, hk, rfl⟩

theorem summarizeGroup_fields (opp : String) (items : List Row) :
    (summarizeGroup opp items).opponent = opp
    ∧ (summarizeGroup opp items).games = items.length
    ∧ (summarizeGroup opp items).wins = (items.filter (fun r => r.result = "win")).length
    ∧ (summarizeGroup opp items).losses = (items.filter (fun r => r.result = "loss")).length
    ∧ (summarizeGroup opp items).ties = (items.filter (fun r => r.result = "tie")).length
    ∧ (summarizeGroup opp items).win_rate
        = pyRound (((items.filter (fun r => r.result = "win")).length : ℚ)
            / ((max items.length 1 : ℕ) : ℚ)) 4
    ∧ (summarizeGroup opp items).score
        = pyRound ((((items.filter (fun r => r.result = "win")).length : ℚ)
              + 1 / 2 * ((items.filter (fun r => r.result = "tie")).length : ℚ))
            / ((max items.length 1 : ℕ) : ℚ)) 4
    ∧ (summarizeGroup opp items).avg_cycles
        = pyRound (((items.map (fun r => r.cycles)).sum : ℚ)
            / ((max items.length 1 : ℕ) : ℚ)) 2 :=
  ⟨rfl, rfl, rfl, rfl, rfl, rfl, rfl, rfl⟩

/-- When every result string is one of the three outcomes, the three outcome
counts partition the group. -/
theorem filter_results_partition (items : List Row)
    (h : ∀ r ∈ items, r.result = "win" ∨ r.result = "loss" ∨ r.result = "tie") :
    (items.filter (fun r => r.result = "win")).length
      + (items.filter (fun r => r.result = "loss")).length
      + (items.filter (fun r => r.result = "tie")).length = items.length := by
  induction items with
  | nil => rfl
  | cons a items ih =>
    have ha := h a (List.mem_cons_self a items)
    have ihh := ih (fun r hr => h r (List.mem_cons_of_mem a hr))
    rcases ha with ha | ha | ha <;>
      simp [List.filter_cons, ha, ← ihh] <;> omega

theorem pyRound_nonneg (q : ℚ) (n : Nat) (hq : 0 ≤ q) : 0 ≤ pyRound q n := by
  rw [pyRound]
  apply div_nonneg
  · have h0 : (0 : ℤ) ≤ round (q * 10 ^ n) := by
      rw [round_eq]
      apply Int.le_floor.mpr
      have h1 : (0 : ℚ) ≤ q * 10 ^ n := mul_nonneg hq (by positivity)
      push_cast
      linarith
    exact_mod_cast h0
  · positivity

theorem pyRound_le_one (q : ℚ) (n : Nat) (hq : q ≤ 1) : pyRound q n ≤ 1 := by
  rw [pyRound, div_le_one (by positivity)]
  have hr : round (q * 10 ^ n) ≤ (10 : ℤ) ^ n := by
    rw [round_eq]
    have hlt : q * 10 ^ n + 1 / 2 < (((10 : ℤ) ^ n + 1 : ℤ) : ℚ) := by
      have h1 : q * 10 ^ n ≤ 10 ^ n := by
        calc q * 10 ^ n ≤ 1 * 10 ^ n :=
              mul_le_mul_of_nonneg_right hq (by positivity)
          _ = 10 ^ n := one_mul _
      push_cast
      linarith
    have := Int.floor_lt.mpr hlt
    omega
  calc ((round (q * 10 ^ n) : ℤ) : ℚ) ≤ (((10 : ℤ) ^ n : ℤ) : ℚ) := by exact_mod_cast hr
    _ = 10 ^ n := by push_cast; ring

/-- C2: for every list of match rows whose result fields are all win, loss
or tie, every summary row satisfies wins + losses + ties == games,
0 <= win_rate <= 1 and 0 <= score <= 1. -/
theorem c2_summary_invariants (rows : List Row)
    (h : ∀ r ∈ rows, r.result = "win" ∨ r.result = "loss" ∨ r.result = "tie") :
    ∀ s ∈ summarize rows,
      s.wins + s.losses + s.ties = s.games
      ∧ 0 ≤ s.win_rate ∧ s.win_rate ≤ 1
      ∧ 0 ≤ s.score ∧ s.score ≤ 1 := by
  intro s hs
  obtain ⟨k, _, rfl⟩ := (mem_summarize_iff rows s).mp hs
  obtain ⟨_, hgames, hwins, hlosses, hties, hwr, hsc, _⟩ :=
    summarizeGroup_fields k (rows.filter (fun r => r.opponent = k))
  set items := rows.filter (fun r => r.opponent = k) with hitems
  have hsub : ∀ r ∈ items, r.result = "win" ∨ r.result = "loss" ∨ r.result = "tie" :=
    fun r hr => h r (List.mem_of_mem_filter hr)
  have hpart := filter_results_partition items hsub
  have hwle : (items.filter (fun r => r.result = "win")).length ≤ items.length :=
    List.length_filter_le _ _
  have hmaxpos : (0 : ℚ) < ((max items.length 1 : ℕ) : ℚ) := by
    have h1 : 1 ≤ max items.length 1 := le_max_right _ 1
    exact_mod_cast Nat.lt_of_lt_of_le Nat.zero_lt_one h1
  have hmax : (items.length : ℚ) ≤ ((max items.length 1 : ℕ) : ℚ) := by
    exact_mod_cast le_max_left items.length 1
  refine ⟨?_, ?_, ?_, ?_, ?_⟩
  · rw [hwins, hlosses, hties, hgames]
    exact hpart
  · rw [hwr]
    exact pyRound_nonneg _ 4 (div_nonneg (by positivity) (le_of_lt hmaxpos))
  · rw [hwr]
    refine pyRound_le_one _ 4 ((div_le_one hmaxpos).mpr ?_)
    calc ((items.filter (fun r => r.result = "win")).length : ℚ)
        ≤ (items.length : ℚ) := by exact_mod_cast hwle
      _ ≤ _ := hmax
  · rw [hsc]
    exact pyRound_nonneg _ 4 (div_nonneg (by positivity) (le_of_lt hmaxpos))
  · rw [hsc]
    refine pyRound_le_one _ 4 ((div_le_one hmaxpos).mpr ?_)
    have hwt : (items.filter (fun r => r.result = "win")).length
        + (items.filter (fun r => r.result = "tie")).length ≤ items.length := by
      omega
    have hcast : ((items.filter (fun r => r.result = "win")).length : ℚ)
        + ((items.filter (fun r => r.result = "tie")).length : ℚ) ≤ (items.length : ℚ) := by
      exact_mod_cast hwt
    have htie0 : (0 : ℚ) ≤ ((items.filter (fun r => r.result = "tie")).length : ℚ) := by
      positivity
    linarith

def w2rows : List Row :=
  [⟨0, "random", "m", 0, 0, 0, 100, "win"⟩,
   ⟨1, "random", "m", 0, 1, 0, 120, "loss"⟩,
   ⟨2, "coac", "m", 0, 0, 2, 130, "tie"⟩]

theorem c2_witness :
    (∀ r ∈ w2rows, r.result = "win" ∨ r.result = "loss" ∨ r.result = "tie")
    ∧ ∀ s ∈ summarize w2rows,
        s.wins + s.losses + s.ties = s.games
        ∧ 0 ≤ s.win_rate ∧ s.win_rate ≤ 1
        ∧ 0 ≤ s.score ∧ s.score ≤ 1 :=
  ⟨by decide, c2_summary_invariants w2rows (by decide)⟩

/-- C5: every produced summary row has score equal to
(wins + 0.5 * ties) / games rounded to 4 decimal places, with the divisor
guarded as max(games, 1); on an empty group (games == 0) the guard makes the
score 0 instead of a division error. -/
theorem c5_score_formula (rows : List Row) (opp : String) :
    (∀ s ∈ summarize rows,
      s.score = pyRound (((s.wins : ℚ) + 1 / 2 * (s.ties : ℚ))
        / ((max s.games 1 : ℕ) : ℚ)) 4)
    ∧ (summarizeGroup opp []).games = 0
    ∧ (summarizeGroup opp []).score = 0 := by
  refine ⟨?_, rfl, ?_⟩
  · intro s hs
    obtain ⟨k, _, rfl⟩ := (mem_summarize_iff rows s).mp hs
    obtain ⟨_, hgames, hwins, _, hties, _, hsc, _⟩ :=
      summarizeGroup_fields k (rows.filter (fun r => r.opponent = k))
    rw [hsc, hwins, hties, hgames]
  · show pyRound ((0 + 1 / 2 * 0) / ((max 0 1 : ℕ) : ℚ)) 4 = 0
    norm_num [pyRound]

theorem c5_witness :
    (∀ s ∈ summarize w2rows,
      s.score = pyRound (((s.wins : ℚ) + 1 / 2 * (s.ties : ℚ))
        / ((max s.games 1 : ℕ) : ℚ)) 4)
    ∧ (summarizeGroup "random" []).games = 0
    ∧ (summarizeGroup "random" []).score = 0 :=
  c5_score_formula w2rows "random"

instance : IsTotal SummaryRow oppLe := ⟨fun a b => le_total a.opponent b.opponent⟩

instance : IsTrans SummaryRow oppLe := ⟨fun _ _ _ hab hbc => le_trans hab hbc⟩

instance : IsAntisymm SummaryRow (fun a b => a.opponent < b.opponent ∨ a = b) :=
  ⟨by
    rintro a b (h₁ | h₁) (h₂ | h₂)
    · exact absurd h₂ (lt_asymm h₁)
    · exact h₂.symm
    · exact h₁
    · exact h₁⟩

/-- The per group statistics are counts and sums, so they only depend on the
multiset of group members. -/
theorem summarizeGroup_perm_invariant (k : String) (items items' : List Row)
    (hp : items.Perm items') : summarizeGroup k items = summarizeGroup k items' := by
  simp only [summarizeGroup]
  rw [hp.length_eq, (hp.filter _).length_eq, (hp.filter _).length_eq,
    (hp.filter _).length_eq, (hp.map _).sum_eq]

theorem summarize_opponents_perm (rows : List Row) :
    ((summarize rows).map (fun s => s.opponent)).Perm
      (firstOcc (rows.map Row.opponent)) := by
  rw [summarize_eq_canon]
  refine ((List.perm_insertionSort oppLe _).map _).trans ?_
  rw [List.map_map]
  have hid : ((firstOcc (rows.map Row.opponent)).map
      ((fun s : SummaryRow => s.opponent)
        ∘ fun k => summarizeGroup k (rows.filter (fun r => r.opponent = k))))
      = firstOcc (rows.map Row.opponent) := by
    refine List.map_congr_left (fun k _ => rfl) |>.trans ?_
    exact List.map_id _
  rw [hid]

theorem summarize_opponents_nodup (rows : List Row) :
    ((summarize rows).map (fun s => s.opponent)).Nodup :=
  ((summarize_opponents_perm rows).nodup_iff).mpr (firstOcc_nodup _)

theorem summarize_sorted (rows : List Row) : (summarize rows).Sorted oppLe := by
  rw [summarize_eq_canon]
  exact List.sorted_insertionSort oppLe _

/-- Two sorted summary lists with duplicate free opponent keys that are
permutations of each other are equal. -/
theorem eq_of_perm_sorted_nodup_keys (l₁ l₂ : List SummaryRow) (hp : l₁.Perm l₂)
    (hs₁ : l₁.Sorted oppLe) (hs₂ : l₂.Sorted oppLe)
    (hn₁ : (l₁.map (fun s => s.opponent)).Nodup) : l₁ = l₂ := by
  have hn₂ : (l₂.map (fun s => s.opponent)).Nodup := ((hp.map _).nodup_iff).mp hn₁
  have hne₁ : l₁.Pairwise (fun a b : SummaryRow => a.opponent ≠ b.opponent) :=
    (List.pairwise_map.mp hn₁)
  have hne₂ : l₂.Pairwise (fun a b : SummaryRow => a.opponent ≠ b.opponent) :=
    (List.pairwise_map.mp hn₂)
  have hstrict₁ : l₁.Sorted (fun a b : SummaryRow => a.opponent < b.opponent ∨ a = b) :=
    (hs₁.and hne₁).imp (fun h => Or.inl (lt_of_le_of_ne h.1 h.2))
  have hstrict₂ : l₂.Sorted (fun a b : SummaryRow => a.opponent < b.opponent ∨ a = b) :=
    (hs₂.and hne₂).imp (fun h => Or.inl (lt_of_le_of_ne h.1 h.2))
  exact List.eq_of_perm_of_sorted hp hstrict₁ hstrict₂

/-- C8: summarize is a pure function of the multiset of input rows
(permutation of the input changes nothing), produces exactly one summary row
per distinct opponent key, and returns the rows sorted ascending by
opponent key. -/
theorem c8_summarize_pure_one_row_sorted (rows rows' : List Row)
    (hperm : rows.Perm rows') :
    summarize rows = summarize rows'
    ∧ ((summarize rows).map (fun s => s.opponent)).Nodup
    ∧ (∀ k, k ∈ (summarize rows).map (fun s => s.opponent) ↔ k ∈ rows.map Row.opponent)
    ∧ (summarize rows).Sorted oppLe := by
  refine ⟨?_, summarize_opponents_nodup rows, ?_, summarize_sorted rows⟩
  · have hK : (rows.map Row.opponent).Perm (rows'.map Row.opponent) := hperm.map _
    have hFO : (firstOcc (rows.map Row.opponent)).Perm
        (firstOcc (rows'.map Row.opponent)) := by
      rw [List.perm_ext_iff_of_nodup (firstOcc_nodup _) (firstOcc_nodup _)]
      intro a
      rw [mem_firstOcc, mem_firstOcc]
      exact hK.mem_iff
    have hmapped : ((firstOcc (rows.map Row.opponent)).map
        (fun k => summarizeGroup k (rows.filter (fun r => r.opponent = k)))).Perm
        ((firstOcc (rows'.map Row.opponent)).map
          (fun k => summarizeGroup k (rows'.filter (fun r => r.opponent = k)))) := by
      have heq : ((firstOcc (rows'.map Row.opponent)).map
          (fun k => summarizeGroup k (rows.filter (fun r => r.opponent = k))))
          = ((firstOcc (rows'.map Row.opponent)).map
            (fun k => summarizeGroup k (rows'.filter (fun r => r.opponent = k)))) :=
        List.map_congr_left
          (fun k _ => summarizeGroup_perm_invariant k _ _ (hperm.filter _))
      exact (hFO.map _).trans (heq ▸ List.Perm.refl _)
    have hp : (summarize rows).Perm (summarize rows') := by
      rw [summarize_eq_canon, summarize_eq_canon]
      exact ((List.perm_insertionSort _ _).trans hmapped).trans
        (List.perm_insertionSort _ _).symm
    exact eq_of_perm_sorted_nodup_keys _ _ hp (summarize_sorted rows)
      (summarize_sorted rows') (summarize_opponents_nodup rows)
  · intro k
    rw [(summarize_opponents_perm rows).mem_iff, mem_firstOcc]

theorem c8_witness :
    (w2rows.Perm [⟨2, "coac", "m", 0, 0, 2, 130, "tie"⟩,
                  ⟨0, "random", "m", 0, 0, 0, 100, "win"⟩,
                  ⟨1, "random", "m", 0, 1, 0, 120, "loss"⟩])
    ∧ summarize w2rows
      = summarize [⟨2, "coac", "m", 0, 0, 2, 130, "tie"⟩,
                   ⟨0, "random", "m", 0, 0, 0, 100, "win"⟩,
                   ⟨1, "random", "m", 0, 1, 0, 120, "loss"⟩]
    ∧ ((summarize w2rows).map (fun s => s.opponent)).Nodup
    ∧ (∀ k, k ∈ (summarize w2rows).map (fun s => s.opponent)
          ↔ k ∈ w2rows.map Row.opponent)
    ∧ (summarize w2rows).Sorted oppLe := by
  have hperm : w2rows.Perm [⟨2, "coac", "m", 0, 0, 2, 130, "tie"⟩,
      ⟨0, "random", "m", 0, 0, 0, 100, "win"⟩,
      ⟨1, "random", "m", 0, 1, 0, 120, "loss"⟩] := by decide
  obtain ⟨h1, h2, h3, h4⟩ := c8_summarize_pure_one_row_sorted w2rows _ hperm
  exact ⟨hperm, h1, h2, h3, h4⟩

/-- The enumeration order stated by the spec for one (opponent, map) block:
for each round index in order, the candidate-as-side-0 record immediately
followed by the candidate-as-side-1 record, match indices consecutive from
mi. -/
def specRounds (results : Nat → MatchResult) (opp mp : String) :
    List Nat → Nat → List Row
  | [], _ => []
  | round_idx :: rest, mi =>
    mkRowA opp mp round_idx mi (results mi)
      :: mkRowB opp mp round_idx (mi + 1) (results (mi + 1))
      :: specRounds results opp mp rest (mi + 2)

/-- Spec enumeration: maps in resolved order inside one opponent. -/
def specMaps (results : Nat → MatchResult) (opp : String) (rounds : Nat) :
    List String → Nat → List Row
  | [], _ => []
  | mp :: rest, mi =>
    specRounds results opp mp (List.range rounds) mi
      ++ specMaps results opp rounds rest (mi + 2 * rounds)

/-- Spec enumeration: opponents in input order. -/
def specOpponents (results : Nat → MatchResult) (maps : List String) (rounds : Nat) :
    List String → Nat → List Row
  | [], _ => []
  | opp :: rest, mi =>
    specMaps results opp rounds maps mi
      ++ specOpponents results maps rounds rest (mi + 2 * rounds * maps.length)

/-- The schedule as the spec words it: opponents in input order, then maps in
resolved order, then rounds 0..rounds-1, a side 0 record immediately followed
by a side 1 record for each combination, match_index counting 0,1,2,... in
creation order. -/
def specSchedule (results : Nat → MatchResult) (opponents maps : List String)
    (rounds : Nat) : List Row :=
  specOpponents results maps rounds opponents 0

theorem runRounds_eq_spec (results : Nat → MatchResult) (opp mp : String)
    (rlist : List Nat) :
    ∀ rows mi, runRounds results opp mp rlist (rows, mi)
      = (rows ++ specRounds results opp mp rlist mi, mi + 2 * rlist.length) := by
  induction rlist with
  | nil => intro rows mi; simp [runRounds, specRounds]
  | cons r rest ih =>
    intro rows mi
    rw [runRounds, ih]
    simp [specRounds]
    omega

theorem runMaps_eq_spec (results : Nat → MatchResult) (opp : String) (rounds : Nat)
    (mps : List String) :
    ∀ rows mi, runMaps results opp rounds mps (rows, mi)
      = (rows ++ specMaps results opp rounds mps mi, mi + 2 * rounds * mps.length) := by
  induction mps with
  | nil => intro rows mi; simp [runMaps, specMaps]
  | cons mp rest ih =>
    intro rows mi
    rw [runMaps, runRounds_eq_spec, ih]
    simp [specMaps, List.length_range]
    ring

theorem runOpponents_eq_spec (results : Nat → MatchResult) (maps : List String)
    (rounds : Nat) (opps : List String) :
    ∀ rows mi, runOpponents results maps rounds opps (rows, mi)
      = (rows ++ specOpponents results maps rounds opps mi,
         mi + 2 * rounds * maps.length * opps.length) := by
  induction opps with
  | nil => intro rows mi; simp [runOpponents, specOpponents]
  | cons opp rest ih =>
    intro rows mi
    rw [runOpponents, runMaps_eq_spec, ih]
    simp [specOpponents]
    ring

/-- The loop of main produces exactly the schedule the spec describes. -/
theorem runAll_eq_specSchedule (results : Nat → MatchResult)
    (opponents maps : List String) (rounds : Nat) :
    runAll results opponents maps rounds = specSchedule results opponents maps rounds := by
  rw [runAll, runOpponents_eq_spec]
  simp [specSchedule]

theorem specRounds_length (results : Nat → MatchResult) (opp mp : String)
    (rlist : List Nat) : ∀ mi,
    (specRounds results opp mp rlist mi).length = 2 * rlist.length := by
  induction rlist with
  | nil => intro mi; rfl
  | cons r rest ih =>
    intro mi
    simp only [specRounds, List.length_cons, ih, List.length_cons]
    omega

theorem specMaps_length (results : Nat → MatchResult) (opp : String) (rounds : Nat)
    (mps : List String) : ∀ mi,
    (specMaps results opp rounds mps mi).length = 2 * rounds * mps.length := by
  induction mps with
  | nil => intro mi; simp [specMaps]
  | cons mp rest ih =>
    intro mi
    simp only [specMaps, List.length_append, specRounds_length, List.length_range,
      ih, List.length_cons]
    ring

theorem specOpponents_length (results : Nat → MatchResult) (maps : List String)
    (rounds : Nat) (opps : List String) : ∀ mi,
    (specOpponents results maps rounds opps mi).length
      = 2 * rounds * maps.length * opps.length := by
  induction opps with
  | nil => intro mi; simp [specOpponents]
  | cons opp rest ih =>
    intro mi
    simp only [specOpponents, List.length_append, specMaps_length, ih, List.length_cons]
    ring

theorem specRounds_map_index (results : Nat → MatchResult) (opp mp : String)
    (rlist : List Nat) : ∀ mi,
    (specRounds results opp mp rlist mi).map (fun r => r.match_index)
      = List.range' mi (2 * rlist.length) := by
  induction rlist with
  | nil => intro mi; rfl
  | cons r rest ih =>
    intro mi
    have h2 : 2 * (rest.length + 1) = 2 * rest.length + 1 + 1 := by omega
    rw [specRounds, List.map_cons, List.map_cons, ih, List.length_cons, h2,
      List.range'_succ, List.range'_succ]
    rfl

theorem specMaps_map_index (results : Nat → MatchResult) (opp : String)
    (rounds : Nat) (mps : List String) : ∀ mi,
    (specMaps results opp rounds mps mi).map (fun r => r.match_index)
      = List.range' mi (2 * rounds * mps.length) := by
  induction mps with
  | nil => intro mi; simp [specMaps]
  | cons mp rest ih =>
    intro mi
    rw [specMaps, List.map_append, specRounds_map_index, ih, List.length_range]
    have := List.range'_append_1 mi (2 * rounds) (2 * rounds * rest.length)
    rw [this]
    congr 1

theorem specOpponents_map_index (results : Nat → MatchResult) (maps : List String)
    (rounds : Nat) (opps : List String) : ∀ mi,
    (specOpponents results maps rounds opps mi).map (fun r => r.match_index)
      = List.range' mi (2 * rounds * maps.length * opps.length) := by
  induction opps with
  | nil => intro mi; simp [specOpponents]
  | cons opp rest ih =>
    intro mi
    rw [specOpponents, List.map_append, specMaps_map_index, ih]
    have := List.range'_append_1 mi (2 * rounds * maps.length)
      (2 * rounds * maps.length * rest.length)
    rw [this]
    congr 1

theorem specRounds_mem_shape (results : Nat → MatchResult) (opp mp : String)
    (rlist : List Nat) : ∀ mi row, row ∈ specRounds results opp mp rlist mi →
    ∃ r k, row = mkRowA opp mp r k (results k) ∨ row = mkRowB opp mp r k (results k) := by
  induction rlist with
  | nil => intro mi row h; cases h
  | cons r rest ih =>
    intro mi row h
    rcases List.mem_cons.mp h with h1 | h2
    · exact ⟨r, mi, Or.inl h1⟩
    · rcases List.mem_cons.mp h2 with h3 | h4
      · exact ⟨r, mi + 1, Or.inr h3⟩
      · exact ih (mi + 2) row h4

theorem specMaps_mem_shape (results : Nat → MatchResult) (opp : String) (rounds : Nat)
    (mps : List String) : ∀ mi row, row ∈ specMaps results opp rounds mps mi →
    ∃ mp r k, row = mkRowA opp mp r k (results k) ∨ row = mkRowB opp mp r k (results k) := by
  induction mps with
  | nil => intro mi row h; cases h
  | cons mp rest ih =>
    intro mi row h
    rcases List.mem_append.mp h with h1 | h2
    · obtain ⟨r, k, hr⟩ := specRounds_mem_shape results opp mp _ mi row h1
      exact ⟨mp, r, k, hr⟩
    · exact ih _ row h2

theorem specOpponents_mem_shape (results : Nat → MatchResult) (maps : List String)
    (rounds : Nat) (opps : List String) : ∀ mi row,
    row ∈ specOpponents results maps rounds opps mi →
    ∃ opp ∈ opps, ∃ mp r k,
      row = mkRowA opp mp r k (results k) ∨ row = mkRowB opp mp r k (results k) := by
  induction opps with
  | nil => intro mi row h; cases h
  | cons opp rest ih =>
    intro mi row h
    rcases List.mem_append.mp h with h1 | h2
    · obtain ⟨mp, r, k, hr⟩ := specMaps_mem_shape results opp rounds maps mi row h1
      exact ⟨opp, List.mem_cons_self opp rest, mp, r, k, hr⟩
    · obtain ⟨o, ho, rest'⟩ := ih _ row h2
      exact ⟨o, List.mem_cons_of_mem opp ho, rest'⟩

theorem specMaps_opponent (results : Nat → MatchResult) (opp : String) (rounds : Nat)
    (mps : List String) (mi : Nat) (row : Row)
    (h : row ∈ specMaps results opp rounds mps mi) : row.opponent = opp := by
  obtain ⟨mp, r, k, hr | hr⟩ := specMaps_mem_shape results opp rounds mps mi row h <;>
    rw [hr] <;> rfl

theorem specOpponents_opponent_mem (results : Nat → MatchResult) (maps : List String)
    (rounds : Nat) (opps : List String) (mi : Nat) (row : Row)
    (h : row ∈ specOpponents results maps rounds opps mi) : row.opponent ∈ opps := by
  obtain ⟨opp, ho, mp, r, k, hr | hr⟩ :=
    specOpponents_mem_shape results maps rounds opps mi row h <;>
    rw [hr] <;> exact ho

theorem specOpponents_filter_count (results : Nat → MatchResult) (maps : List String)
    (rounds : Nat) (opps : List String) : ∀ mi, opps.Nodup → ∀ opp ∈ opps,
    ((specOpponents results maps rounds opps mi).filter
      (fun r => r.opponent = opp)).length = 2 * rounds * maps.length := by
  induction opps with
  | nil => intro mi _ opp h; cases h
  | cons o rest ih =>
    intro mi hnd opp hopp
    rw [specOpponents, List.filter_append, List.length_append]
    by_cases ho : opp = o
    · subst ho
      have h1 : (specMaps results opp rounds maps mi).filter
          (fun r => r.opponent = opp) = specMaps results opp rounds maps mi := by
        rw [List.filter_eq_self]
        intro a ha
        simp [specMaps_opponent results opp rounds maps mi a ha]
      have h2 : (specOpponents results maps rounds rest
          (mi + 2 * rounds * maps.length)).filter (fun r => r.opponent = opp) = [] := by
        rw [List.filter_eq_nil_iff]
        intro a ha hmem
        have haopp : a.opponent ∈ rest := specOpponents_opponent_mem results maps rounds rest _ a ha
        have : a.opponent = opp := by simpa using hmem
        exact (List.nodup_cons.mp hnd).1 (this ▸ haopp)
      rw [h1, h2, specMaps_length]
      rfl
    · have hrest : opp ∈ rest := by
        rcases List.mem_cons.mp hopp with h | h
        · exact absurd h ho
        · exact h
      have h1 : (specMaps results o rounds maps mi).filter
          (fun r => r.opponent = opp) = [] := by
        rw [List.filter_eq_nil_iff]
        intro a ha hmem
        have : a.opponent = opp := by simpa using hmem
        rw [specMaps_opponent results o rounds maps mi a ha] at this
        exact ho this.symm
      rw [h1, ih _ (List.nodup_cons.mp hnd).2 opp hrest]
      simp

/-- C3: with every match invocation succeeding, the loop of main enumerates
opponents in input order, then maps, then rounds, producing for each
combination the candidate-as-side-0 record immediately followed by the
candidate-as-side-1 record (the schedule specSchedule); match_index takes
the values 0,1,2,... in creation order, and with distinct opponent keys
every opponent ends with exactly 2 * rounds * (number of maps) records. -/
theorem c3_schedule_enumeration (results : Nat → MatchResult)
    (opponents maps : List String) (rounds : Nat) (hnd : opponents.Nodup) :
    runAll results opponents maps rounds = specSchedule results opponents maps rounds
    ∧ (runAll results opponents maps rounds).length
        = 2 * rounds * maps.length * opponents.length
    ∧ (runAll results opponents maps rounds).map (fun r => r.match_index)
        = List.range (2 * rounds * maps.length * opponents.length)
    ∧ ∀ opp ∈ opponents,
        ((runAll results opponents maps rounds).filter
          (fun r => r.opponent = opp)).length = 2 * rounds * maps.length := by
  refine ⟨runAll_eq_specSchedule results opponents maps rounds, ?_, ?_, ?_⟩
  · rw [runAll_eq_specSchedule, specSchedule, specOpponents_length]
  · rw [runAll_eq_specSchedule, specSchedule, specOpponents_map_index,
      List.range_eq_range']
  · intro opp hopp
    rw [runAll_eq_specSchedule, specSchedule]
    exact specOpponents_filter_count results maps rounds opponents 0 hnd opp hopp

def w3results : Nat → MatchResult := fun i => ⟨(i % 2 : Nat), (100 : Int) + i, true⟩

theorem c3_witness :
    (["random"] : List String).Nodup
    ∧ (runAll w3results ["random"] ["m"] 2).length = 4
    ∧ (runAll w3results ["random"] ["m"] 2).map (fun r => r.match_index) = [0, 1, 2, 3]
    ∧ ((runAll w3results ["random"] ["m"] 2).filter
        (fun r => r.opponent = "random")).length = 4
    ∧ runAll w3results ["random"] ["m"] 2 = specSchedule w3results ["random"] ["m"] 2 := by
  refine ⟨by decide, by decide, by decide, by decide, ?_⟩
  exact (c3_schedule_enumeration w3results ["random"] ["m"] 2 (by decide)).1

theorem outcomeSide0_spec (w : Int) :
    (outcomeSide0 w = "win" ↔ w = 0) ∧ (outcomeSide0 w = "loss" ↔ w = 1)
    ∧ (w ≠ 0 → w ≠ 1 → outcomeSide0 w = "tie") := by
  unfold outcomeSide0
  by_cases h0 : w = 0
  · simp [h0]
  · by_cases h1 : w = 1
    · simp [h0, h1]
    · simp [h0, h1]

theorem outcomeSide1_spec (w : Int) :
    (outcomeSide1 w = "win" ↔ w = 1) ∧ (outcomeSide1 w = "loss" ↔ w = 0)
    ∧ (w ≠ 1 → w ≠ 0 → outcomeSide1 w = "tie") := by
  unfold outcomeSide1
  by_cases h1 : w = 1
  · simp [h1]
  · by_cases h0 : w = 0
    · simp [h0, h1]
    · simp [h0, h1]

/-- C4: every recorded row classifies the outcome from the candidate bot's
perspective: with the candidate on side 0 the result is win iff winner == 0,
loss iff winner == 1 and tie otherwise; with the candidate on side 1 the
result is win iff winner == 1, loss iff winner == 0 and tie otherwise. -/
theorem c4_outcome_classification (results : Nat → MatchResult)
    (opponents maps : List String) (rounds : Nat) :
    ∀ row ∈ runAll results opponents maps rounds,
      (row.alli_side = 0 →
        (row.result = "win" ↔ row.winner = 0)
        ∧ (row.result = "loss" ↔ row.winner = 1)
        ∧ (row.winner ≠ 0 → row.winner ≠ 1 → row.result = "tie"))
      ∧ (row.alli_side = 1 →
        (row.result = "win" ↔ row.winner = 1)
        ∧ (row.result = "loss" ↔ row.winner = 0)
        ∧ (row.winner ≠ 1 → row.winner ≠ 0 → row.result = "tie")) := by
  intro row hrow
  rw [runAll_eq_specSchedule, specSchedule] at hrow
  obtain ⟨opp, _, mp, r, k, hr | hr⟩ :=
    specOpponents_mem_shape results maps rounds opponents 0 row hrow
  · subst hr
    constructor
    · intro _
      exact outcomeSide0_spec (results k).winner
    · intro h
      exact absurd h (by simp [mkRowA])
  · subst hr
    constructor
    · intro h
      exact absurd h (by simp [mkRowB])
    · intro _
      exact outcomeSide1_spec (results k).winner

def w4row : Row := ⟨0, "random", "m", 0, 0, 0, 100, "win"⟩

theorem c4_witness :
    w4row ∈ runAll w3results ["random"] ["m"] 1
    ∧ ((w4row.alli_side = 0 →
        (w4row.result = "win" ↔ w4row.winner = 0)
        ∧ (w4row.result = "loss" ↔ w4row.winner = 1)
        ∧ (w4row.winner ≠ 0 → w4row.winner ≠ 1 → w4row.result = "tie"))
      ∧ (w4row.alli_side = 1 →
        (w4row.result = "win" ↔ w4row.winner = 1)
        ∧ (w4row.result = "loss" ↔ w4row.winner = 0)
        ∧ (w4row.winner ≠ 1 → w4row.winner ≠ 0 → w4row.result = "tie"))) :=
  ⟨by decide,
   c4_outcome_classification w3results ["random"] ["m"] 1 w4row (by decide)⟩
